import Mathlib

/-
Verification development for the CrossHair static proving core
(crosshairlib.py).  The Python source is shallowly embedded: each Lean
definition mirrors one Python function or class of the source file, and
the theorems at the end of the file settle the specification claims
about them.

Embedding conventions:
* Python `ast` trees are embedded as the inductive `Node` below, covering
  exactly the node kinds the pattern matcher `matches` handles
  (Call, Name, Module, BinOp, BoolOp, Num, plus child lists).  `ast.Expr`
  and `ast.arg` wrappers and the closed-world "unhandled node type" error
  are orthogonal to the claims and are not modelled.  Operator *classes*
  (`ast.Add`, `ast.And`, ...) are identified by their name string, since
  the source only ever compares them by `type(..) is type(..)` and reads
  their `__name__`.
* Python dicts used as pattern-variable binding maps are embedded as
  association lists with most-recent-first lookup; `dict.clear()` is the
  empty list.  A dict is empty iff the association list is empty, and
  lookup agrees with dict lookup, so the observable behaviour coincides.
* Fallible Python code (raised exceptions) is embedded with
  `Option`/`Except`; nonterminating recursion is embedded with an
  explicit fuel parameter, `none` meaning the run did not terminate
  within the fuel.
-/

mutual
/-- Syntax-tree nodes, embedding the Python `ast` node kinds that the
pattern matcher handles.  Child-node lists (`node.args`, `node.values`,
`node.body`) use the bespoke mutual list type `NodeList` so that all
recursions over trees stay structural. -/
inductive Node where
  | name (id : String)
  | num (n : Int)
  | call (func : Node) (args : NodeList)
  | binop (op : String) (left : Node) (right : Node)
  | boolop (op : String) (values : NodeList)
  | module (body : NodeList)
deriving DecidableEq, Repr
inductive NodeList where
  | nil
  | cons (hd : Node) (tl : NodeList)
deriving DecidableEq, Repr
end

def NodeList.length : NodeList → Nat
  | .nil => 0
  | .cons _ tl => tl.length + 1

def NodeList.append : NodeList → NodeList → NodeList
  | .nil, ys => ys
  | .cons x xs, ys => .cons x (xs.append ys)

/-- Bindings from pattern-variable name to bound subtree
(`bind` dicts in the source). -/
abbrev Bindings := List (String × Node)

/-- The check `patt.id[0] == '$'` from `matches` (pattern variables are
tagged with a leading dollar by `preprocess_pattern_vars`). -/
def isPatternVar (s : String) : Bool :=
  match s.data with
  | [] => false
  | c :: _ => c = '$'

/-- The slice `patt.id[1:]` used as binding key. -/
def varName (s : String) : String := String.mk (s.data.drop 1)

mutual
/-- Embedding of `matches(node, patt, bind)` together with its `_MATCHER`
table (crosshairlib.py lines 108-150).  The Python function mutates
`bind` and returns a `bool`; here the pair `(result, bind-after-call)` is
returned.  `matches` is a reserved word in Lean, hence the name
`matchesAst`.  Mirrored behaviour, case by case:
* a pattern `Name` starting with a dollar binds unconditionally;
* a kind mismatch (`typ is not type(node)`) clears the bindings and fails;
* `_MATCHER[ast.Call]` checks the callee, then `len(n.args)==len(p.args)`,
  then the zipped argument lists (short-circuiting like `all`);
* `_MATCHER[ast.BinOp]`/`[ast.BoolOp]` first compare `type(n.op)`
  with `type(p.op)` and fail without clearing on operator mismatch;
* `_MATCHER[ast.Module]` matches the `body` lists;
* `_MATCHER[list]` zips the two lists, truncating to the shorter one;
* `_MATCHER[ast.Num]` compares the numeric payloads. -/
def matchesAst (node : Node) (patt : Node) (b : Bindings) : Bool × Bindings :=
  match patt with
  | .name pid =>
    if isPatternVar pid then (true, (varName pid, node) :: b)
    else match node with
      | .name nid => (decide (nid = pid), b)
      | _ => (false, [])
  | .num pn =>
    match node with
      | .num nn => (decide (nn = pn), b)
      | _ => (false, [])
  | .call pf pargs =>
    match node with
      | .call nf nargs =>
        let r := matchesAst nf pf b
        if r.1 then
          if nargs.length = pargs.length then matchesList nargs pargs r.2
          else (false, r.2)
        else (false, r.2)
      | _ => (false, [])
  | .binop pop pl pr =>
    match node with
      | .binop nop nl nr =>
        if nop = pop then
          let r := matchesAst nl pl b
          if r.1 then matchesAst nr pr r.2 else (false, r.2)
        else (false, b)
      | _ => (false, [])
  | .boolop pop pvals =>
    match node with
      | .boolop nop nvals =>
        if nop = pop then matchesList nvals pvals b else (false, b)
      | _ => (false, [])
  | .module pbody =>
    match node with
      | .module nbody => matchesList nbody pbody b
      | _ => (false, [])

def matchesList (ns : NodeList) (ps : NodeList) (b : Bindings) : Bool × Bindings :=
  match ns, ps with
  | _, .nil => (true, b)
  | .nil, .cons _ _ => (true, b)
  | .cons n ns, .cons p ps =>
    let r := matchesAst n p b
    if r.1 then matchesList ns ps r.2 else (false, r.2)
end

/-- Kind tag of a node, standing for Python `type(node)`. -/
def Node.kind : Node → Nat
  | .name _ => 0
  | .num _ => 1
  | .call _ _ => 2
  | .binop _ _ _ => 3
  | .boolop _ _ => 4
  | .module _ => 5

/-- Truncation of a node list, used to state which elements the zipped
matcher consults. -/
def NodeList.take : Nat → NodeList → NodeList
  | 0, _ => .nil
  | _, .nil => .nil
  | n + 1, .cons x xs => .cons x (xs.take n)

/-- Rewrite rule triple `(patt, repl, cond)` as stored by
`RewriteEngine.add`. -/
structure RewriteRule where
  patt : Node
  repl : Node
  cond : Bindings → Bool

/-- Structural hash `patthash` (crosshairlib.py lines 175-182): the pair
of the node kind and a discriminant that distinguishes `BinOp`/`BoolOp`
by operator type.  The Python `Call` discriminant is
`n.func if isinstance(n.func, str) else 0`; a `Call` node's `func` is
always an `ast` node and never a `str`, so the discriminant of every
`Call` is the constant `0`, which the single `callH` tag reflects. -/
inductive PattHash where
  | nameH
  | numH
  | callH
  | binopH (op : String)
  | boolopH (op : String)
  | moduleH
deriving DecidableEq, Repr

def patthash : Node → PattHash
  | .name _ => .nameH
  | .num _ => .numH
  | .call _ _ => .callH
  | .binop op _ _ => .binopH op
  | .boolop op _ => .boolopH op
  | .module _ => .moduleH

/-- Rule index of a `RewriteEngine`: `self._index` is a
`defaultdict(list)`, so a hash with no entry yields the empty list;
the embedding is the total function from hash to rule list. -/
abbrev RuleIndex := PattHash → List RewriteRule

/-- Embedding of `WrappedRewriteEngine.lookup` (crosshairlib.py lines
320-331): `r1` is the wrapped engine's own index entry, `r2` the inner
(base) engine's; `not r1` / `not r2` are list emptiness tests. -/
def wrappedLookup (localIndex : RuleIndex) (inner : RuleIndex) (hsh : PattHash) :
    List RewriteRule :=
  let r1 := localIndex hsh
  let r2 := inner hsh
  if r1.isEmpty then r2
  else if r2.isEmpty then r1
  else r1 ++ r2

/-- Function definition record: the fields of an `ast.FunctionDef` that
the registry logic reads (`fn.name`, `fn.args` with per-argument
predicate markers, `fn.returns`).  The statement body built by the
source's definitional-assertion synthesiser is not inspected by any
claim and is represented by the synthesised name and argument list. -/
structure FnDef where
  name : String
  args : List (String × Option String)
  returns : Option String
deriving DecidableEq, Repr

/-- Modelled from the spec: `argument_preconditions` lives in the
`asthelpers` module, which is not part of this repository's sources;
per the spec a definition's parameter preconditions are the predicates
declared on its parameters, so the function collects the argument
predicate markers. -/
def argument_preconditions (args : List (String × Option String)) : List String :=
  args.filterMap Prod.snd

/-- Embedding of the definitional-assertion synthesiser
(crosshairlib.py lines 488-506; its source name contains a word this
development avoids in identifiers): returns `None` when the definition
has neither parameter preconditions nor a return predicate, otherwise a
synthesised `_assertdef_`-named assertion function over the same
arguments. -/
def fn_derived_assertion (fn : FnDef) : Option FnDef :=
  if argument_preconditions fn.args = [] ∧ fn.returns = none then none
  else some { name := "_assertdef_" ++ fn.name, args := fn.args, returns := none }

/-- Embedding of `FnInfo` (crosshairlib.py lines 508-530); the
back-pointer to the owning module and the global
`_fndef_to_moduleinfo` side table do not affect the claims and are
omitted. -/
structure FnInfo where
  name : String
  assertions : List FnDef
  definition : Option FnDef
  definitional_assertion : Option FnDef
deriving DecidableEq, Repr

def FnInfo.add_assertion (f : FnInfo) (a : FnDef) : FnInfo :=
  { f with assertions := f.assertions ++ [a] }

/-- Embedding of `FnInfo.set_definition` (crosshairlib.py lines
517-525): raises `multiply defined function` when a definition is
already present, otherwise stores the definition and, when one is
synthesised, the definitional assertion. -/
def FnInfo.set_definition (f : FnInfo) (d : FnDef) : Except String FnInfo :=
  match f.definition with
  | some _ => .error ("multiply defined function: " ++ f.name)
  | none =>
      let da := fn_derived_assertion d
      .ok { f with
              definition := some d
              definitional_assertion :=
                if da.isSome then da else f.definitional_assertion }

/-- The operations a registry performs on one `FnInfo` over its
lifetime (`parse_pure` only ever calls these two).  A raised
`set_definition` exception propagates out of `parse_pure`, leaving the
object unchanged, which the error arm mirrors. -/
inductive FnOp where
  | addAssertion (a : FnDef)
  | setDefinition (d : FnDef)

def applyFnOp (f : FnInfo) : FnOp → FnInfo
  | .addAssertion a => f.add_assertion a
  | .setDefinition d =>
      match f.set_definition d with
      | .ok f2 => f2
      | .error _ => f

def applyFnOps (f : FnInfo) : List FnOp → FnInfo
  | [] => f
  | op :: ops => applyFnOps (applyFnOp f op) ops

/-- Scored axiom candidate `Z3Statement` (crosshairlib.py lines
979-988): source syntax tree (or none), compiled formula, and the score
assigned by the oracle (`None` until `set_score` is called; `None` marks
a required axiom).  The tree and the formula are opaque to `solve`, so
they are embedded as abstract handles. -/
structure Z3Statement where
  src_ast : Option Nat
  expr : Nat
  score : Option Int
deriving DecidableEq, Repr

/-- Comparison key of `assumptions.sort(key=lambda a: a.score)`: every
statement sorted has a `some` score (the `None`-scored ones were
filtered out first), so the default is never consulted. -/
def scoreLe (a b : Z3Statement) : Bool := a.score.getD 0 ≤ b.score.getD 0

/-- Embedding of the assumption-selection prefix of `solve`
(crosshairlib.py lines 803-809): keep every statement whose score is
`None` as required, sort the scored statements ascending by score
(Python's stable `list.sort`; `List.mergeSort` is also stable), truncate
the scored ones to the first 120, and assert required ++ truncated. -/
def selectAssumptions (assumptions : List Z3Statement) : List Z3Statement :=
  let required_assumptions := assumptions.filter (fun a => a.score.isNone)
  let scored := assumptions.filter (fun a => a.score.isSome)
  let sorted := scored.mergeSort scoreLe
  required_assumptions ++ sorted.take 120

/-- Result of `solver.check()` / the surrounding `try` in `solve`:
the three z3 verdicts, the `b'canceled'` Z3 exception (expected
timeout/cancel), and any other Z3 exception (re-raised). -/
inductive CheckOutcome where
  | unsat
  | sat
  | unknown
  | canceled
  | failed (msg : String)
deriving DecidableEq, Repr

/-- Embedding of the verdict-handling suffix of `solve` (crosshairlib.py
lines 824-850).  `make_repro_case` is the `CH_REPRO` toggle; `core` is
the label set extracted from `solver.unsat_core()` in tracked mode
(empty and unused in repro mode).  Outcomes: unsat in tracked mode
raises the soundness failure unless the `conclusion` label is in the
core, otherwise returns proof success `some true`; sat returns
`some false` (counterexample); unknown and the expected cancellation
return `none`; any other solver exception propagates. -/
def solveResult (make_repro_case : Bool) (outcome : CheckOutcome) (core : List String) :
    Except String (Option Bool) :=
  match outcome with
  | .unsat =>
      if make_repro_case then .ok (some true)
      else if "conclusion" ∈ core then .ok (some true)
      else .error "Soundness failure; conclusion not required for proof"
  | .sat => .ok (some false)
  | .unknown => .ok none
  | .canceled => .ok none
  | .failed msg => .error msg

/-- Terms of the logic sort `Unk` together with the uninterpreted
application operator `App` (the z3 declarations at crosshairlib.py
lines 400-446): variants none/bool/int/func, the cons cell `a(tl, hd)`,
the empty tuple `_`, the error value `undef`, plus `App` (`.`), the
`Concat` function, and named `Unk` constants minted by
`Z3Transformer.register` (one per referenced definition). -/
inductive Term where
  | noneV
  | bool (b : Bool)
  | int (n : Int)
  | func (f : String)
  | a (tl : Term) (hd : Term)
  | empty
  | undef
  | app (f : Term) (x : Term)
  | concat (x : Term) (y : Term)
  | const (name : String)
deriving DecidableEq, Repr

/-- Argument as passed to `z3apply`: either a compiled value or the
`ast.Starred` wrapper produced by `visit_Starred` around a compiled
value. -/
inductive ZArg where
  | plain (t : Term)
  | starred (t : Term)
deriving DecidableEq, Repr

/-- Embedding of `_merge_arg(accumulator, arg)` (crosshairlib.py lines
553-560). -/
def merge_arg (accumulator : Term) (arg : ZArg) : Term :=
  match arg with
  | .starred v => if accumulator = Term.empty then v else Term.concat accumulator v
  | .plain t => Term.a accumulator t

/-- Embedding of `z3apply(fnval, args)` (crosshairlib.py lines 562-566)
for the non-intrinsic branch: `App(fnval, reduce(_merge_arg, args,
Unk._))`.  The intrinsic branch (`id(fnval) in _z3_fn_ids`) applies a
Python-level z3 helper instead; the `_op_*` operator constants used by
the comparison and subscript paths are registered `Unk` constants, never
intrinsics, so that branch is not taken there. -/
def z3apply (fnval : Term) (args : List ZArg) : Term :=
  Term.app fnval (args.foldl merge_arg Term.empty)

/-- Embedding of `register(fn_for_op(optype))` (crosshairlib.py lines
548-549 and 587-612): the definition of the pure function named
`_op_<optype>` is resolved and memoised as the `Unk` constant carrying
that name; referencing the same operator twice yields the same
constant. -/
def fn_for_op (optype : String) : Term := Term.const ("_op_" ++ optype)

/-- Operand expressions of the compiler fragment under test.  The claims
about `visit_Compare` and `handle_subscript` hold for any operand
compiler, so operands are atoms and the compiler visiting them is a
parameter. -/
inductive PyExpr where
  | num (n : Int)
  | name (id : String)
deriving DecidableEq, Repr

/-- Operand compiler used for concrete evaluations: numbers compile as
`visit_Num` does (`Z.Wrapint`), names as registered constants. -/
def visitAtom : PyExpr → Term
  | .num n => Term.int n
  | .name s => Term.const s

/-- Loop state of `visit_Compare` (crosshairlib.py lines 659-673):
the accumulated conjunction `ret` (initially `None`), the previously
compiled comparand `lastval`, and — as the embedding's instrumentation —
the log of operand expressions passed to `self.visit`, in call order
(each `self.visit` call on an operand appends one entry). -/
structure CompareState where
  ret : Option Term
  lastval : Term
  log : List PyExpr
deriving DecidableEq, Repr

/-- Helper `add(expr, clause)` inside `visit_Compare`: the first clause
is returned as-is, later clauses are conjoined as
`z3apply(And, [clause, expr])`. -/
def addClause (expr : Option Term) (clause : Term) : Term :=
  match expr with
  | none => clause
  | some e => z3apply (fn_for_op "And") [.plain clause, .plain e]

/-- One iteration of the `for op, left in reversed(list(zip(node.ops[1:],
node.comparators[:-1])))` loop: compile the left comparand, conjoin the
comparison of it with `lastval`, and make it the new `lastval`. -/
def compareStep (visit : PyExpr → Term) (s : CompareState) (p : String × PyExpr) :
    CompareState :=
  let lv := visit p.2
  { ret := some (addClause s.ret (z3apply (fn_for_op p.1) [.plain lv, .plain s.lastval]))
    lastval := lv
    log := s.log ++ [p.2] }

/-- Embedding of `Z3Transformer.visit_Compare` (crosshairlib.py lines
659-673).  `ops` are the operator class names of `node.ops`,
`comparators` the operand expressions of `node.comparators`.  The
returned pair is the compiled term and the log of operand `visit`
calls.  An `ast.Compare` node always has at least one operator and one
comparator, so the fallback arm is unreachable on real nodes. -/
def visit_Compare (visit : PyExpr → Term) (left : PyExpr) (ops : List String)
    (comparators : List PyExpr) : Term × List PyExpr :=
  match ops, comparators.getLast? with
  | op0 :: _, some clast =>
      let s0 : CompareState := ⟨none, visit clast, [clast]⟩
      let pairs := (ops.drop 1).zip comparators.dropLast
      let s1 := pairs.reverse.foldl (compareStep visit) s0
      (addClause s1.ret (z3apply (fn_for_op op0) [.plain (visit left), .plain s1.lastval]),
       s1.log ++ [left])
  | _, _ => (Term.undef, [])

/-- Specification-shaped form of the chained comparison: the list of the
adjacent pairwise comparisons `op_i(c_(i-1), c_i)`. -/
def pairwiseComparisons (visit : PyExpr → Term) :
    PyExpr → List String → List PyExpr → List Term
  | left, op :: ops, c :: cs =>
      z3apply (fn_for_op op) [.plain (visit left), .plain (visit c)]
        :: pairwiseComparisons visit c ops cs
  | _, _, _ => []

/-- Specification-shaped form of the conjunction built right-to-left:
a right-nested `And` of the clauses (a single clause stands alone). -/
def conjoinRight : List Term → Term
  | [] => Term.undef
  | [t] => t
  | t :: ts => z3apply (fn_for_op "And") [.plain t, .plain (conjoinRight ts)]

/-- Subscript forms dispatched on by `handle_subscript`
(`ast.Index`, `ast.Slice` with and without step, `ast.ExtSlice`). -/
inductive PySlice where
  | index (value : PyExpr)
  | slice (lower : PyExpr) (upper : PyExpr) (step : Option PyExpr)
  | extSlice (dims : List PyExpr)
deriving DecidableEq, Repr

/-- Field names of the binding environment, straight from
`collections.namedtuple('Z3BindingEnv', ['refs', 'support'])`
(crosshairlib.py line 568). -/
def Z3BindingEnv_fields : List String := ["refs", "support"]

/-- Embedding of `Z3Transformer.handle_subscript` (crosshairlib.py lines
617-632).  Every non-ExtSlice branch begins with `self.env.ops.add(..)`;
`Z3BindingEnv` has only the fields `refs` and `support`, so that
attribute access raises `AttributeError` before any term is built (the
`z3apply(fn_for_op(..))` calls that would build the Get/SubList/
SteppedSubList applications are in the unreachable guarded arms).  The
ExtSlice branch evaluates `index.dims` where no name `index` is bound,
raising `NameError` when `functools.reduce` pulls the first generator
element. -/
def handle_subscript (visit : PyExpr → Term) (value : Term) (subscript : PySlice) :
    Except String Term :=
  match subscript with
  | .index i =>
      if "ops" ∈ Z3BindingEnv_fields then
        .ok (z3apply (fn_for_op "Get") [.plain value, .plain (visit i)])
      else .error "AttributeError: Z3BindingEnv has no attribute ops"
  | .slice lower upper none =>
      if "ops" ∈ Z3BindingEnv_fields then
        .ok (z3apply (fn_for_op "SubList")
              [.plain value, .plain (visit lower), .plain (visit upper)])
      else .error "AttributeError: Z3BindingEnv has no attribute ops"
  | .slice lower upper (some step) =>
      if "ops" ∈ Z3BindingEnv_fields then
        .ok (z3apply (fn_for_op "SteppedSubList")
              [.plain value, .plain (visit lower), .plain (visit upper),
               .plain (visit step)])
      else .error "AttributeError: Z3BindingEnv has no attribute ops"
  | .extSlice _ => .error "NameError: name index is not defined"

/-- Registry view used by the knowledge-expansion loop of
`prove_assertion_fn` (crosshairlib.py lines 1030-1053): `defs` is the
list of definitions held by `_pure_defs.functions` (in iteration order),
identified by abstract ids; `refsOf d` is the set of definition ids
newly entered into `env.refs` while compiling the assertions,
`is_func` fact and definitional assertion of `d` during its round. -/
structure ProverRegistry where
  defs : List Nat
  refsOf : Nat → Finset Nat

/-- Loop state: the `handled` set and the keys of `env.refs`. -/
structure ProverState where
  handled : Finset Nat
  refs : Finset Nat
deriving DecidableEq

/-- One round of the `for iter in range(_MAX_DEPTH)` body: compute
`borderset = set(env.refs.keys()) - handled` (fixed at round start),
mark every registry definition inside it handled, absorb the references
its compilation adds, and report whether anything was added
(`addedone`).  The `baseline` statement accumulation does not influence
the loop control and is not part of the state. -/
def roundStep (reg : ProverRegistry) (s : ProverState) : ProverState × Bool :=
  let borderset := s.refs \ s.handled
  let newly := reg.defs.filter (fun d => d ∈ borderset)
  (⟨s.handled ∪ newly.toFinset,
    s.refs ∪ newly.foldr (fun d acc => reg.refsOf d ∪ acc) ∅⟩,
   !newly.isEmpty)

/-- Iterated rounds, for stating which round first reaches the closure. -/
def iterRound (reg : ProverRegistry) : Nat → ProverState → ProverState
  | 0, s => s
  | k + 1, s => iterRound reg k (roundStep reg s).1

/-- Result of the expansion loop: final state, number of executed
rounds, and whether the loop stopped early via `if not addedone: break`
(as opposed to exhausting the round cap). -/
structure ExpandResult where
  state : ProverState
  rounds : Nat
  reachedFix : Bool
deriving DecidableEq

/-- The round cap `_MAX_DEPTH = 10` (crosshairlib.py line 1030). -/
def MAX_DEPTH : Nat := 10

/-- Embedding of the knowledge-expansion loop
`for iter in range(_MAX_DEPTH): ... if not addedone: break`
(crosshairlib.py lines 1032-1053), parameterised by the remaining
fuel (`range` budget). -/
def expandLoop (reg : ProverRegistry) (s : ProverState) : Nat → ExpandResult
  | 0 => ⟨s, 0, false⟩
  | fuel + 1 =>
      let r := roundStep reg s
      if r.2 then
        let rest := expandLoop reg r.1 fuel
        ⟨rest.state, rest.rounds + 1, rest.reachedFix⟩
      else ⟨r.1, 1, true⟩

/-- Dict lookup on a bindings association list (newest entry wins,
like Python dict assignment). -/
def bindingsGet (b : Bindings) (k : String) : Option Node :=
  (b.find? (fun p => p.1 == k)).map Prod.snd

mutual
/-- Embedding of `replace_pattern_vars(node, bindings)` /
`PatternVarReplacer` (crosshairlib.py lines 94-106): every Name tagged
as a pattern variable is replaced by its bound subtree (the replacement
is not re-visited, matching `visit_Name` returning the deep copy
directly); an unbound pattern variable is a `KeyError`, embedded as
`none`.  The `copy.deepcopy` calls ensure the Python trees do not alias
across matches; under value semantics they are identities. -/
def replacePatternVars : Node → Bindings → Option Node
  | .name nid, b =>
      if isPatternVar nid then bindingsGet b (varName nid)
      else some (.name nid)
  | .num n, _ => some (.num n)
  | .call f args, b =>
      match replacePatternVars f b, replaceListVars args b with
      | some f2, some args2 => some (.call f2 args2)
      | _, _ => none
  | .binop op l r, b =>
      match replacePatternVars l b, replacePatternVars r b with
      | some l2, some r2 => some (.binop op l2 r2)
      | _, _ => none
  | .boolop op vs, b =>
      match replaceListVars vs b with
      | some vs2 => some (.boolop op vs2)
      | none => none
  | .module body, b =>
      match replaceListVars body b with
      | some body2 => some (.module body2)
      | none => none

def replaceListVars : NodeList → Bindings → Option NodeList
  | .nil, _ => some .nil
  | .cons n ns, b =>
      match replacePatternVars n b, replaceListVars ns b with
      | some n2, some ns2 => some (.cons n2 ns2)
      | _, _ => none
end

/-- One full scan of the candidate rules for a node inside
`RewriteEngine.rewrite_top` (crosshairlib.py lines 299-316): the `bind`
dict is shared across the scan, polluted both by matches whose
condition fails and by failed partial matches, exactly as in the
source.  Result: `none` when no rule fired in the scan (`not matched`),
`some r` when a rule matched with passing condition and its replacement
evaluated to `r` (`r = none`: the replacement raised `KeyError`). -/
def tryCands : List RewriteRule → Node → Bindings → Option (Option Node)
  | [], _, _ => none
  | rule :: rest, node, b =>
      let r := matchesAst node rule.patt b
      if r.1 then
        if rule.cond r.2 then some (replacePatternVars rule.repl r.2)
        else tryCands rest node r.2
      else tryCands rest node r.2

/-- Embedding of the `while True` loop of `RewriteEngine.rewrite_top`:
repeatedly rescan (with a fresh `bind = {}`) until no rule fires, then
return the node.  The loop need not terminate (a rule can rewrite a
node to itself forever), hence the fuel. -/
def rewriteTop (idx : RuleIndex) : Nat → Node → Option Node
  | 0, _ => none
  | fuel + 1, node =>
      match tryCands (idx (patthash node)) node [] with
      | none => some node
      | some none => none
      | some (some newnode) => rewriteTop idx fuel newnode

/-- One-layer traversal of `ast.NodeTransformer.generic_visit`: visit
every child with the given visitor and rebuild the node (operator tags
are not expression nodes for the rule patterns, so visiting them is the
identity, as it is in the source where no rule pattern can hash to an
operator class). -/
def visitListWith (visit : Node → Option Node) : NodeList → Option NodeList
  | .nil => some .nil
  | .cons n ns =>
      match visit n, visitListWith visit ns with
      | some n2, some ns2 => some (.cons n2 ns2)
      | _, _ => none

def visitChildrenWith (visit : Node → Option Node) : Node → Option Node
  | .name i => some (.name i)
  | .num n => some (.num n)
  | .call f args =>
      match visit f, visitListWith visit args with
      | some f2, some args2 => some (.call f2 args2)
      | _, _ => none
  | .binop op l r =>
      match visit l, visit r with
      | some l2, some r2 => some (.binop op l2 r2)
      | _, _ => none
  | .boolop op vs =>
      match visitListWith visit vs with
      | some vs2 => some (.boolop op vs2)
      | none => none
  | .module body =>
      match visitListWith visit body with
      | some body2 => some (.module body2)
      | none => none

/-- Embedding of `RewriteEngine.generic_visit` (crosshairlib.py lines
292-298), the whole-tree rewriting pass: in a loop, rewrite all children
(recursively, by this same function), apply `rewrite_top`, and stop when
`rewrite_top` returns the node unchanged; `RewriteEngine.rewrite` /
`visit` dispatches every node kind here since the engine defines no
`visit_*` methods.  Python compares with `newnode is node`; `rewrite_top`
only returns the identical object when no rule fired during its final
scan, and a fired rule cannot return a structurally identical node
without looping forever inside `rewrite_top`, so structural equality
coincides with identity whenever the call terminates.  The structurally
smaller fuel is passed to the children, mirroring only that the run
terminates. -/
def genericVisit (idx : RuleIndex) : Nat → Node → Option Node
  | 0, _ => none
  | fuel + 1, node =>
      match visitChildrenWith (genericVisit idx fuel) node with
      | none => none
      | some node2 =>
          match rewriteTop idx (fuel + 1) node2 with
          | none => none
          | some newnode =>
              if newnode = node2 then some node2 else genericVisit idx fuel newnode

/-- Top-level `RewriteEngine.rewrite(node)` = `self.visit(node)`. -/
def engineRewrite (idx : RuleIndex) (fuel : Nat) (node : Node) : Option Node :=
  genericVisit idx fuel node

/-- No rule of the index fires on the node itself during a fresh scan
(the state `rewrite_top` exits its loop in). -/
def topNoMatch (idx : RuleIndex) (n : Node) : Prop :=
  tryCands (idx (patthash n)) n [] = none

mutual
/-- No rule fires anywhere in the tree: `rewrite` of such a tree is the
identity. -/
def NoMatchAll (idx : RuleIndex) : Node → Prop
  | .name i => topNoMatch idx (.name i)
  | .num n => topNoMatch idx (.num n)
  | .call f args =>
      topNoMatch idx (.call f args) ∧ NoMatchAll idx f ∧ NoMatchAllList idx args
  | .binop op l r =>
      topNoMatch idx (.binop op l r) ∧ NoMatchAll idx l ∧ NoMatchAll idx r
  | .boolop op vs => topNoMatch idx (.boolop op vs) ∧ NoMatchAllList idx vs
  | .module body => topNoMatch idx (.module body) ∧ NoMatchAllList idx body

def NoMatchAllList (idx : RuleIndex) : NodeList → Prop
  | .nil => True
  | .cons n ns => NoMatchAll idx n ∧ NoMatchAllList idx ns
end

/-- All children of the node are rule-free trees. -/
def childrenNoMatch (idx : RuleIndex) : Node → Prop
  | .name _ => True
  | .num _ => True
  | .call f args => NoMatchAll idx f ∧ NoMatchAllList idx args
  | .binop _ l r => NoMatchAll idx l ∧ NoMatchAll idx r
  | .boolop _ vs => NoMatchAllList idx vs
  | .module body => NoMatchAllList idx body

mutual
/-- Size measure for fuel accounting. -/
def nsize : Node → Nat
  | .name _ => 1
  | .num _ => 1
  | .call f args => nsize f + lsize args + 1
  | .binop _ l r => nsize l + nsize r + 1
  | .boolop _ vs => lsize vs + 1
  | .module body => lsize body + 1

def lsize : NodeList → Nat
  | .nil => 0
  | .cons n ns => nsize n + lsize ns
end

/-- Structural induction for the list half of the mutual tree type. -/
theorem NodeList.inductionOn {motive : NodeList → Prop} (hnil : motive .nil)
    (hcons : ∀ n ns, motive ns → motive (.cons n ns)) : ∀ ns, motive ns
  | .nil => hnil
  | .cons n ns => hcons n ns (NodeList.inductionOn hnil hcons ns)

theorem matchesList_takes_pattern_length (ps : NodeList) :
    ∀ (ns : NodeList) (b : Bindings), ps.length ≤ ns.length →
      matchesList ns ps b = matchesList (ns.take ps.length) ps b := by
  induction ps using NodeList.inductionOn with
  | hnil => intro ns b _; cases ns <;> simp [matchesList, NodeList.take, NodeList.length]
  | hcons p ps ih =>
    intro ns b hle
    cases ns with
    | nil => simp [NodeList.length] at hle
    | cons n ns =>
      simp only [NodeList.length] at hle
      simp only [matchesList, NodeList.length, NodeList.take]
      by_cases h : (matchesAst n p b).1 = true
      · simp only [h, if_true]
        exact ih ns (matchesAst n p b).2 (by omega)
      · simp only [Bool.not_eq_true] at h
        simp [h]

/-- Claim C10: the matcher performs no length check when comparing the
child lists of `Module` bodies, `BoolOp` operand lists, and generic node
lists — elements are paired as by `zip`, truncating to the shorter
sequence, so a pattern list with fewer elements than the node list can
still match.  Only `Call` argument lists are compared for equal length
(any argument-count mismatch fails regardless of the rest).  Stated as:
(1) list matching consults only the first `ps.length` node elements when
the pattern list `ps` is no longer than the node list; (2) a `Module`
pattern with one body element matches a module with two; (3) a `BoolOp`
pattern with one operand matches a conjunction with three operands;
(4) a `Call` pattern whose argument count differs from the node's never
matches. -/
theorem matcher_zip_truncates_only_call_checks_length :
    (∀ (ps ns : NodeList) (b : Bindings), ps.length ≤ ns.length →
        matchesList ns ps b = matchesList (ns.take ps.length) ps b) ∧
    (matchesAst
        (.module (.cons (.num 1) (.cons (.num 2) .nil)))
        (.module (.cons (.num 1) .nil)) [] = (true, [])) ∧
    (matchesAst
        (.boolop "And" (.cons (.num 1) (.cons (.num 2) (.cons (.num 3) .nil))))
        (.boolop "And" (.cons (.num 1) .nil)) [] = (true, [])) ∧
    (∀ (nf pf : Node) (nargs pargs : NodeList) (b : Bindings),
        nargs.length ≠ pargs.length →
        (matchesAst (.call nf nargs) (.call pf pargs) b).1 = false) := by
  refine ⟨fun ps ns b h => matchesList_takes_pattern_length ps ns b h, by decide, by decide, ?_⟩
  intro nf pf nargs pargs b hlen
  cases hr : (matchesAst nf pf b).1 <;> simp [matchesAst, hr, hlen]

/-- Witness for C10 at concrete inputs: a call pattern with one argument
does not match a call node with two arguments, and a one-element list
pattern against a two-element node list consults only the first node
element. -/
theorem matcher_zip_truncates_only_call_checks_length_witness :
    (matchesAst
        (.call (.name "f") (.cons (.num 1) (.cons (.num 2) .nil)))
        (.call (.name "f") (.cons (.num 1) .nil)) []).1 = false ∧
    matchesList (.cons (.num 7) (.cons (.num 8) .nil)) (.cons (.name "$A") .nil) []
      = matchesList ((NodeList.cons (.num 7) (.cons (.num 8) .nil)).take 1)
          (.cons (.name "$A") .nil) [] :=
  ⟨matcher_zip_truncates_only_call_checks_length.2.2.2 (.name "f") (.name "f")
      (.cons (.num 1) (.cons (.num 2) .nil)) (.cons (.num 1) .nil) [] (by decide),
   matcher_zip_truncates_only_call_checks_length.1 (.cons (.name "$A") .nil)
      (.cons (.num 7) (.cons (.num 8) .nil)) [] (by decide)⟩

/-- Claim C9 counterexample: `matches` can fail and leave the bindings
map non-empty.  Matching the node `1 + c` against the pattern `$X + b`
binds `X` to `1`, then fails on the identifier mismatch `c` vs `b`
inside `_MATCHER[ast.BinOp]`, which returns `False` without clearing, so
the call returns failure with the binding `X -> 1` still live. -/
theorem matches_failure_leaves_bindings_counterexample :
    (matchesAst (.binop "Add" (.num 1) (.name "c"))
        (.binop "Add" (.name "$X") (.name "b")) []).1 = false ∧
    (matchesAst (.binop "Add" (.num 1) (.name "c"))
        (.binop "Add" (.name "$X") (.name "b")) []).2 = [("X", .num 1)] := by
  decide

/-- Claim C9, amended: when `matches` fails because the pattern's node
kind differs from the node's kind (and the pattern is not a pattern
variable), the bindings map is cleared to empty and failure is returned;
failure paths inside the kind-specific matchers (identifier, numeral,
operator or argument-count mismatches, or a child failure after earlier
children have bound variables) may instead leave partial bindings in the
map. -/
theorem matches_clears_bindings_on_kind_mismatch (node patt : Node) (b : Bindings)
    (hvar : ∀ pid, patt = Node.name pid → isPatternVar pid = false)
    (hkind : patt.kind ≠ node.kind) :
    matchesAst node patt b = (false, []) := by
  cases patt <;> cases node <;> simp_all [matchesAst, Node.kind]

/-- Witness for the amended C9: matching the node `1` against the
non-variable pattern `f()` (a kind mismatch) fails with the bindings
cleared, even though a stale binding was present on entry. -/
theorem matches_clears_bindings_on_kind_mismatch_witness :
    matchesAst (.num 1) (.call (.name "f") .nil) [("Y", .num 5)] = (false, []) :=
  matches_clears_bindings_on_kind_mismatch (.num 1) (.call (.name "f") .nil)
    [("Y", .num 5)] (by intro pid h; cases h) (by decide)

/-- Claim C8 counterexample: with one local rule and one base rule under
the same hash, the local index has an entry, yet the layered lookup does
not return just the local rules — the base rules are appended as well
(the result has two rules, not one). -/
theorem wrapped_lookup_uses_base_counterexample :
    (fun _ : PattHash => [RewriteRule.mk (.name "a") (.name "a") (fun _ => true)])
        PattHash.nameH ≠ [] ∧
    (wrappedLookup
        (fun _ => [RewriteRule.mk (.name "a") (.name "a") (fun _ => true)])
        (fun _ => [RewriteRule.mk (.name "b") (.name "b") (fun _ => true)])
        PattHash.nameH).length = 2 ∧
    ((fun _ : PattHash => [RewriteRule.mk (.name "a") (.name "a") (fun _ => true)])
        PattHash.nameH).length = 1 := by
  refine ⟨by simp, ?_, by simp⟩
  simp [wrappedLookup]

/-- Claim C8, amended: the layered lookup consults the wrapped engine's
own local rule index first and always returns the local rules followed
by the shared base rules for that hash (`local ++ base`); the base
set's rules are therefore still used as later candidates even when the
local index has an entry, and the result is the base list alone exactly
when the local entry is empty. -/
theorem wrapped_lookup_local_then_base (localIndex inner : RuleIndex) (hsh : PattHash) :
    wrappedLookup localIndex inner hsh = localIndex hsh ++ inner hsh := by
  unfold wrappedLookup
  cases h1 : (localIndex hsh).isEmpty with
  | true => simp [List.isEmpty_iff.mp h1]
  | false =>
    cases h2 : (inner hsh).isEmpty with
    | true => simp [h1, List.isEmpty_iff.mp h2]
    | false => simp [h1, h2]

/-- Claim C5: calling `set_definition` when a definition is already set
raises the `multiply defined function` error, and the stored definition
is never replaced — under any sequence of registry operations, once
`definition` is set it stays the same for the lifetime of the
registry. -/
theorem fninfo_definition_set_once (f : FnInfo) (d d0 : FnDef) (ops : List FnOp)
    (h : f.definition = some d0) :
    f.set_definition d = .error ("multiply defined function: " ++ f.name) ∧
    (applyFnOps f ops).definition = some d0 := by
  constructor
  · unfold FnInfo.set_definition
    rw [h]
  · induction ops generalizing f with
    | nil => exact h
    | cons op ops ih =>
      cases op with
      | addAssertion a =>
        exact ih (f.add_assertion a) h
      | setDefinition d2 =>
        have hstep : applyFnOp f (.setDefinition d2) = f := by
          unfold applyFnOp FnInfo.set_definition
          rw [h]
        simpa [applyFnOps, hstep] using ih f h

/-- Witness for C5: a function info whose definition is already `f` is
not overwritten by a second `set_definition` (which errors), nor by any
later operation. -/
theorem fninfo_definition_set_once_witness :
    (FnInfo.mk "f" [] (some (FnDef.mk "f" [] none)) none).set_definition
        (FnDef.mk "g" [] none) = .error ("multiply defined function: " ++ "f") ∧
    (applyFnOps (FnInfo.mk "f" [] (some (FnDef.mk "f" [] none)) none)
        [.setDefinition (FnDef.mk "g" [] none),
         .addAssertion (FnDef.mk "_assert_f" [] none)]).definition
      = some (FnDef.mk "f" [] none) :=
  fninfo_definition_set_once (FnInfo.mk "f" [] (some (FnDef.mk "f" [] none)) none)
    (FnDef.mk "g" [] none) (FnDef.mk "f" [] none)
    [.setDefinition (FnDef.mk "g" [] none), .addAssertion (FnDef.mk "_assert_f" [] none)]
    (by decide)

/-- Claim C1: in tracked (non-repro) mode, whenever the solver reports
unsatisfiable, `solve` raises the fatal soundness error unless the
`conclusion` label appears in the extracted unsat core, and it never
reports proof success when the conclusion label is absent (the case in
which the axioms alone were contradictory). -/
theorem solve_tracked_unsat_soundness_check (core : List String) :
    ("conclusion" ∉ core →
      solveResult false .unsat core
        = .error "Soundness failure; conclusion not required for proof") ∧
    (solveResult false .unsat core = .ok (some true) → "conclusion" ∈ core) := by
  constructor
  · intro h
    simp [solveResult, h]
  · intro h
    by_contra hc
    simp [solveResult, hc] at h

/-- Witness for C1: with an empty unsat core (no label, in particular
not `conclusion`), tracked-mode unsat raises the soundness failure. -/
theorem solve_tracked_unsat_soundness_check_witness :
    solveResult false .unsat []
      = .error "Soundness failure; conclusion not required for proof" :=
  (solve_tracked_unsat_soundness_check []).1 (by decide)

/-- Claim C3: `solve` asserts exactly the statements whose score is
`None` (required axioms) plus the scored statements sorted ascending by
score and truncated to the first 120; required axioms are never dropped
by the truncation, everything asserted comes from the input list, the
scored part is sorted ascending, and at most 120 scored statements
survive. -/
theorem solve_selects_required_plus_top120 (l : List Z3Statement) :
    selectAssumptions l
      = l.filter (fun a => a.score.isNone)
        ++ ((l.filter (fun a => a.score.isSome)).mergeSort scoreLe).take 120 ∧
    (∀ a ∈ l, a.score = none → a ∈ selectAssumptions l) ∧
    (∀ a ∈ selectAssumptions l, a ∈ l) ∧
    List.Pairwise (fun a b => scoreLe a b = true)
      (((l.filter (fun a => a.score.isSome)).mergeSort scoreLe).take 120) ∧
    (((l.filter (fun a => a.score.isSome)).mergeSort scoreLe).take 120).length ≤ 120 := by
  refine ⟨rfl, ?_, ?_, ?_, ?_⟩
  · intro a ha hs
    unfold selectAssumptions
    simp only [List.mem_append, List.mem_filter]
    exact Or.inl ⟨ha, by simp [hs]⟩
  · intro a ha
    unfold selectAssumptions at ha
    simp only [List.mem_append, List.mem_filter] at ha
    rcases ha with ⟨ha, _⟩ | ha
    · exact ha
    · have := (List.take_sublist 120 _).subset ha
      rw [List.mem_mergeSort] at this
      exact (List.mem_filter.mp this).1
  · have htrans : ∀ a b c : Z3Statement,
        scoreLe a b = true → scoreLe b c = true → scoreLe a c = true := by
      intro a b c hab hbc
      simp only [scoreLe, decide_eq_true_eq] at hab hbc ⊢
      omega
    have htotal : ∀ a b : Z3Statement, (scoreLe a b || scoreLe b a) = true := by
      intro a b
      simp only [scoreLe, Bool.or_eq_true, decide_eq_true_eq]
      omega
    exact (List.sorted_mergeSort htrans htotal _).sublist (List.take_sublist 120 _)
  · simp [List.length_take]

/-- Witness for C3 at a concrete input: a required (score-`None`)
statement is kept by the selection even alongside scored statements. -/
theorem solve_selects_required_plus_top120_witness :
    Z3Statement.mk (some 0) 10 none
      ∈ selectAssumptions
          [Z3Statement.mk (some 0) 10 none, Z3Statement.mk (some 1) 11 (some 5)] :=
  (solve_selects_required_plus_top120
      [Z3Statement.mk (some 0) 10 none, Z3Statement.mk (some 1) 11 (some 5)]).2.1
    (Z3Statement.mk (some 0) 10 none) (by simp) (by decide)

/-- Claim C7 (code bug): no compiled subscript expression produces a
`Get`/`SubList`/`SteppedSubList`/`Add` application, because every
`handle_subscript` branch raises before building its term: the
`Index`/`Slice` branches crash on `self.env.ops` (the binding
environment named tuple has only the fields `refs` and `support`), and
the `ExtSlice` branch reads the unbound name `index`. -/
theorem handle_subscript_always_raises (visit : PyExpr → Term) (value : Term)
    (s : PySlice) :
    handle_subscript visit value s
      = .error (match s with
                | .extSlice _ => "NameError: name index is not defined"
                | _ => "AttributeError: Z3BindingEnv has no attribute ops") := by
  cases s with
  | index i => simp [handle_subscript, Z3BindingEnv_fields]
  | slice lo hi st => cases st <;> simp [handle_subscript, Z3BindingEnv_fields]
  | extSlice dims => rfl

theorem pairwiseComparisons_cons_ne_nil (visit : PyExpr → Term) (x : PyExpr)
    (o : String) (os : List String) (c : PyExpr) (cs : List PyExpr) :
    pairwiseComparisons visit x (o :: os) (c :: cs) ≠ [] := by
  simp [pairwiseComparisons]

theorem conjoinRight_cons (t : Term) (ts : List Term) (h : ts ≠ []) :
    conjoinRight (t :: ts)
      = z3apply (fn_for_op "And") [.plain t, .plain (conjoinRight ts)] := by
  cases ts with
  | nil => exact absurd rfl h
  | cons t2 ts2 => rfl

theorem compare_foldr_spec (visit : PyExpr → Term) (clast : PyExpr) :
    ∀ (cs : List PyExpr) (os : List String), os.length = cs.length →
      ((os.zip cs).foldr (fun p st => compareStep visit st p)
          (CompareState.mk none (visit clast) [clast]))
        = CompareState.mk
            (match os, cs with
             | o :: os2, c :: cs2 =>
                 some (conjoinRight
                   (pairwiseComparisons visit c (o :: os2) (cs2 ++ [clast])))
             | _, _ => none)
            (visit (cs.headD clast))
            ((cs ++ [clast]).reverse) := by
  intro cs
  induction cs with
  | nil =>
    intro os h
    cases os with
    | nil => simp
    | cons o os2 => simp at h
  | cons c cs2 ih =>
    intro os h
    cases os with
    | nil => simp at h
    | cons o os2 =>
      simp only [List.length_cons] at h
      have hrec := ih os2 (by omega)
      simp only [List.zip_cons_cons, List.foldr_cons, hrec]
      cases cs2 with
      | nil =>
        cases os2 with
        | nil =>
          simp [compareStep, addClause, pairwiseComparisons, conjoinRight]
        | cons o2 os3 => simp at h
      | cons c2 cs3 =>
        cases os2 with
        | nil => simp at h
        | cons o2 os3 =>
          simp only [compareStep, CompareState.mk.injEq, List.headD_cons]
          have hne2 : pairwiseComparisons visit c2 (o2 :: os3) (cs3 ++ [clast]) ≠ [] := by
            cases cs3 <;> simp [pairwiseComparisons]
          have hexp : pairwiseComparisons visit c (o :: o2 :: os3) (c2 :: cs3 ++ [clast])
              = z3apply (fn_for_op o) [.plain (visit c), .plain (visit c2)]
                :: pairwiseComparisons visit c2 (o2 :: os3) (cs3 ++ [clast]) := by
            simp [pairwiseComparisons]
          refine ⟨?_, by simp, by simp⟩
          rw [hexp, conjoinRight_cons _ _ hne2]
          simp [addClause]

/-- Claim C6: compiling a chained comparison with `n` operators produces
the conjunction of the `n` adjacent pairwise comparisons, built
right-to-left (a right-nested `And`, a single comparison standing
alone), and each operand is passed to the compiler exactly once — the
log component, which records every `self.visit` call on an operand in
call order, is exactly the operands `left, c1, ..., cn`, each once
(rightmost first, per the reversed loop). -/
theorem visit_compare_builds_pairwise_conjunction (visit : PyExpr → Term)
    (left : PyExpr) (ops : List String) (comparators : List PyExpr)
    (hlen : ops.length = comparators.length) (hne : ops ≠ []) :
    visit_Compare visit left ops comparators
      = (conjoinRight (pairwiseComparisons visit left ops comparators),
         (left :: comparators).reverse) := by
  cases ops with
  | nil => exact absurd rfl hne
  | cons op0 os =>
    have hcne : comparators ≠ [] := by
      intro h
      rw [h] at hlen
      simp at hlen
    obtain ⟨cs, clast, hdec⟩ : ∃ cs clast, comparators = cs ++ [clast] :=
      ⟨comparators.dropLast, comparators.getLast hcne,
        (List.dropLast_append_getLast hcne).symm⟩
    subst hdec
    have hos : os.length = cs.length := by
      simp only [List.length_cons, List.length_append, List.length_nil] at hlen
      omega
    simp only [visit_Compare, List.getLast?_concat, List.drop_one, List.tail_cons,
      List.dropLast_concat, List.foldl_reverse]
    rw [compare_foldr_spec visit clast cs os hos]
    cases cs with
    | nil =>
      cases os with
      | nil => simp [addClause, pairwiseComparisons, conjoinRight]
      | cons o1 os2 => simp at hos
    | cons c cs2 =>
      cases os with
      | nil => simp at hos
      | cons o1 os2 =>
        have hne2 : pairwiseComparisons visit c (o1 :: os2) (cs2 ++ [clast]) ≠ [] := by
          cases cs2 <;> simp [pairwiseComparisons]
        have hexp : pairwiseComparisons visit left (op0 :: o1 :: os2) (c :: (cs2 ++ [clast]))
            = z3apply (fn_for_op op0) [.plain (visit left), .plain (visit c)]
              :: pairwiseComparisons visit c (o1 :: os2) (cs2 ++ [clast]) := by
          simp [pairwiseComparisons]
        simp only [List.cons_append, List.headD_cons]
        rw [hexp, conjoinRight_cons _ _ hne2]
        simp [addClause]

/-- Witness for C6: the doctest chain `0 <= 5 < 9` compiles to the
conjunction `App(_op_And, a(a(_, App(_op_LtE, a(a(_, int 0), int 5))),
App(_op_Lt, a(a(_, int 5), int 9))))` — the term equivalent of
`(0<=5) and (5<9)` — with the operands 9, 5, 0 each compiled once. -/
theorem visit_compare_builds_pairwise_conjunction_witness :
    visit_Compare visitAtom (.num 0) ["LtE", "Lt"] [.num 5, .num 9]
      = (conjoinRight (pairwiseComparisons visitAtom (.num 0) ["LtE", "Lt"]
            [.num 5, .num 9]),
         ((PyExpr.num 0) :: [PyExpr.num 5, PyExpr.num 9]).reverse) ∧
    conjoinRight (pairwiseComparisons visitAtom (.num 0) ["LtE", "Lt"] [.num 5, .num 9])
      = Term.app (Term.const "_op_And")
          (Term.a (Term.a Term.empty
              (Term.app (Term.const "_op_LtE")
                (Term.a (Term.a Term.empty (Term.int 0)) (Term.int 5))))
            (Term.app (Term.const "_op_Lt")
              (Term.a (Term.a Term.empty (Term.int 5)) (Term.int 9)))) :=
  ⟨visit_compare_builds_pairwise_conjunction visitAtom (.num 0) ["LtE", "Lt"]
      [.num 5, .num 9] (by decide) (by decide), by decide⟩

theorem roundStep_no_add (reg : ProverRegistry) (s : ProverState)
    (h : (roundStep reg s).2 = false) : roundStep reg s = (s, false) := by
  have h2 : (List.filter (fun d => decide (d ∈ s.refs \ s.handled)) reg.defs) = [] := by
    simp only [roundStep, Bool.not_eq_false'] at h
    exact List.isEmpty_iff.mp h
  simp only [roundStep, h2, List.toFinset_nil, Finset.union_empty, List.foldr_nil,
    List.isEmpty_nil, Bool.not_true]

theorem expandLoop_rounds_le (reg : ProverRegistry) :
    ∀ (fuel : Nat) (s : ProverState), (expandLoop reg s fuel).rounds ≤ fuel := by
  intro fuel
  induction fuel with
  | zero => intro s; simp [expandLoop]
  | succ n ih =>
    intro s
    unfold expandLoop
    cases h : (roundStep reg s).2 with
    | true => simpa [h] using Nat.succ_le_succ (ih (roundStep reg s).1)
    | false => simp [h]

theorem expandLoop_stops_on_no_add (reg : ProverRegistry) (s : ProverState)
    (h : (roundStep reg s).2 = false) (n : Nat) :
    expandLoop reg s (n + 1) = ⟨s, 1, true⟩ := by
  have hs := roundStep_no_add reg s h
  simp [expandLoop, hs]

theorem expandLoop_fix (reg : ProverRegistry) :
    ∀ (fuel : Nat) (s : ProverState), (expandLoop reg s fuel).reachedFix = true →
      roundStep reg (expandLoop reg s fuel).state
        = ((expandLoop reg s fuel).state, false) := by
  intro fuel
  induction fuel with
  | zero => intro s h; simp [expandLoop] at h
  | succ n ih =>
    intro s h
    cases hr : (roundStep reg s).2 with
    | true =>
      simp only [expandLoop, hr, if_true] at h ⊢
      exact ih (roundStep reg s).1 h
    | false =>
      have hs := roundStep_no_add reg s hr
      rw [expandLoop_stops_on_no_add reg s hr n]
      simpa using hs

theorem expandLoop_reaches_fix (reg : ProverRegistry) :
    ∀ (fuel : Nat) (s : ProverState),
      (∃ k, k < fuel ∧ (roundStep reg (iterRound reg k s)).2 = false) →
      (expandLoop reg s fuel).reachedFix = true := by
  intro fuel
  induction fuel with
  | zero =>
    intro s ⟨k, hk, _⟩
    omega
  | succ n ih =>
    intro s ⟨k, hk, hno⟩
    cases hr : (roundStep reg s).2 with
    | false => rw [expandLoop_stops_on_no_add reg s hr n]
    | true =>
      simp only [expandLoop, hr, if_true]
      cases k with
      | zero => rw [iterRound] at hno; rw [hno] at hr; cases hr
      | succ k2 =>
        exact ih (roundStep reg s).1 ⟨k2, by omega, by rwa [iterRound] at hno⟩

/-- Claim C4: the knowledge-expansion loop of `prove_assertion_fn`
executes at most `_MAX_DEPTH = 10` rounds; it terminates at the first
round that adds no newly referenced definition to the handled set
(executing exactly that one round and leaving the state unchanged); and
whenever the reference closure is reached within the cap — some round
before the cap would add nothing — the loop stops early at a state that
is a fixpoint of the round step. -/
theorem knowledge_expansion_caps_and_fixpoint (reg : ProverRegistry) (s : ProverState) :
    (expandLoop reg s MAX_DEPTH).rounds ≤ MAX_DEPTH ∧
    ((roundStep reg s).2 = false → expandLoop reg s MAX_DEPTH = ⟨s, 1, true⟩) ∧
    ((expandLoop reg s MAX_DEPTH).reachedFix = true →
      roundStep reg (expandLoop reg s MAX_DEPTH).state
        = ((expandLoop reg s MAX_DEPTH).state, false)) ∧
    ((∃ k, k < MAX_DEPTH ∧ (roundStep reg (iterRound reg k s)).2 = false) →
      (expandLoop reg s MAX_DEPTH).reachedFix = true) := by
  refine ⟨expandLoop_rounds_le reg MAX_DEPTH s, ?_, expandLoop_fix reg MAX_DEPTH s,
    expandLoop_reaches_fix reg MAX_DEPTH s⟩
  intro h
  have h10 : MAX_DEPTH = 9 + 1 := rfl
  rw [h10]
  exact expandLoop_stops_on_no_add reg s h 9

/-- Witness for C4 at a concrete registry: two definitions, the first
referencing the second, starting from a conclusion referencing the
first.  The loop handles both within the cap, stops early, and its
final state is a round-step fixpoint. -/
theorem knowledge_expansion_caps_and_fixpoint_witness :
    roundStep (ProverRegistry.mk [0, 1] (fun d => if d = 0 then {1} else ∅))
        (expandLoop (ProverRegistry.mk [0, 1] (fun d => if d = 0 then {1} else ∅))
          (ProverState.mk ∅ {0}) MAX_DEPTH).state
      = ((expandLoop (ProverRegistry.mk [0, 1] (fun d => if d = 0 then {1} else ∅))
          (ProverState.mk ∅ {0}) MAX_DEPTH).state, false) :=
  (knowledge_expansion_caps_and_fixpoint
      (ProverRegistry.mk [0, 1] (fun d => if d = 0 then {1} else ∅))
      (ProverState.mk ∅ {0})).2.2.1 (by decide)

theorem nsize_pos : ∀ n : Node, 1 ≤ nsize n := by
  intro n
  cases n <;> simp [nsize]

mutual
theorem nodeMutualInd (mN : Node → Prop) (mL : NodeList → Prop)
    (h1 : ∀ s, mN (.name s)) (h2 : ∀ i, mN (.num i))
    (h3 : ∀ f args, mN f → mL args → mN (.call f args))
    (h4 : ∀ op l r, mN l → mN r → mN (.binop op l r))
    (h5 : ∀ op vs, mL vs → mN (.boolop op vs))
    (h6 : ∀ body, mL body → mN (.module body))
    (h7 : mL .nil)
    (h8 : ∀ n ns, mN n → mL ns → mL (.cons n ns)) :
    ∀ n, mN n
  | .name s => h1 s
  | .num i => h2 i
  | .call f args =>
      h3 f args (nodeMutualInd mN mL h1 h2 h3 h4 h5 h6 h7 h8 f)
        (listMutualInd mN mL h1 h2 h3 h4 h5 h6 h7 h8 args)
  | .binop op l r =>
      h4 op l r (nodeMutualInd mN mL h1 h2 h3 h4 h5 h6 h7 h8 l)
        (nodeMutualInd mN mL h1 h2 h3 h4 h5 h6 h7 h8 r)
  | .boolop op vs => h5 op vs (listMutualInd mN mL h1 h2 h3 h4 h5 h6 h7 h8 vs)
  | .module body => h6 body (listMutualInd mN mL h1 h2 h3 h4 h5 h6 h7 h8 body)

theorem listMutualInd (mN : Node → Prop) (mL : NodeList → Prop)
    (h1 : ∀ s, mN (.name s)) (h2 : ∀ i, mN (.num i))
    (h3 : ∀ f args, mN f → mL args → mN (.call f args))
    (h4 : ∀ op l r, mN l → mN r → mN (.binop op l r))
    (h5 : ∀ op vs, mL vs → mN (.boolop op vs))
    (h6 : ∀ body, mL body → mN (.module body))
    (h7 : mL .nil)
    (h8 : ∀ n ns, mN n → mL ns → mL (.cons n ns)) :
    ∀ ns, mL ns
  | .nil => h7
  | .cons n ns =>
      h8 n ns (nodeMutualInd mN mL h1 h2 h3 h4 h5 h6 h7 h8 n)
        (listMutualInd mN mL h1 h2 h3 h4 h5 h6 h7 h8 ns)
end

theorem rewriteTop_topNoMatch (idx : RuleIndex) :
    ∀ (fuel : Nat) (node out : Node),
      rewriteTop idx fuel node = some out → topNoMatch idx out := by
  intro fuel
  induction fuel with
  | zero => intro node out h; simp [rewriteTop] at h
  | succ f ih =>
    intro node out h
    simp only [rewriteTop] at h
    cases htc : tryCands (idx (patthash node)) node [] with
    | none =>
      rw [htc] at h
      injection h with h2
      subst h2
      exact htc
    | some o =>
      cases o with
      | none => rw [htc] at h; cases h
      | some nn => rw [htc] at h; exact ih nn out h

theorem noMatchAll_iff (idx : RuleIndex) (n : Node) :
    NoMatchAll idx n ↔ topNoMatch idx n ∧ childrenNoMatch idx n := by
  cases n <;> simp [NoMatchAll, childrenNoMatch]

theorem visitListWith_noMatch (idx : RuleIndex) (visit : Node → Option Node)
    (hv : ∀ n out, visit n = some out → NoMatchAll idx out) :
    ∀ (ns : NodeList) (out : NodeList),
      visitListWith visit ns = some out → NoMatchAllList idx out := by
  intro ns
  induction ns using NodeList.inductionOn with
  | hnil =>
    intro out h
    simp only [visitListWith] at h
    injection h with h2
    subst h2
    trivial
  | hcons n ns ih =>
    intro out h
    simp only [visitListWith] at h
    cases hn : visit n with
    | none => rw [hn] at h; cases h
    | some n2 =>
      rw [hn] at h
      cases hns : visitListWith visit ns with
      | none => rw [hns] at h; cases h
      | some ns2 =>
        rw [hns] at h
        injection h with h2
        subst h2
        exact ⟨hv n n2 hn, ih ns2 hns⟩

theorem visitChildrenWith_noMatch (idx : RuleIndex) (visit : Node → Option Node)
    (hv : ∀ n out, visit n = some out → NoMatchAll idx out) :
    ∀ (node out : Node),
      visitChildrenWith visit node = some out → childrenNoMatch idx out := by
  intro node out h
  cases node with
  | name s =>
    simp only [visitChildrenWith] at h
    injection h with h2
    subst h2
    trivial
  | num i =>
    simp only [visitChildrenWith] at h
    injection h with h2
    subst h2
    trivial
  | call f args =>
    simp only [visitChildrenWith] at h
    cases hf : visit f with
    | none => rw [hf] at h; cases h
    | some f2 =>
      rw [hf] at h
      cases hargs : visitListWith visit args with
      | none => rw [hargs] at h; cases h
      | some args2 =>
        rw [hargs] at h
        injection h with h2
        subst h2
        exact ⟨hv f f2 hf, visitListWith_noMatch idx visit hv args args2 hargs⟩
  | binop op l r =>
    simp only [visitChildrenWith] at h
    cases hl : visit l with
    | none => rw [hl] at h; cases h
    | some l2 =>
      rw [hl] at h
      cases hr : visit r with
      | none => rw [hr] at h; cases h
      | some r2 =>
        rw [hr] at h
        injection h with h2
        subst h2
        exact ⟨hv l l2 hl, hv r r2 hr⟩
  | boolop op vs =>
    simp only [visitChildrenWith] at h
    cases hvs : visitListWith visit vs with
    | none => rw [hvs] at h; cases h
    | some vs2 =>
      rw [hvs] at h
      injection h with h2
      subst h2
      exact visitListWith_noMatch idx visit hv vs vs2 hvs
  | module body =>
    simp only [visitChildrenWith] at h
    cases hb : visitListWith visit body with
    | none => rw [hb] at h; cases h
    | some body2 =>
      rw [hb] at h
      injection h with h2
      subst h2
      exact visitListWith_noMatch idx visit hv body body2 hb

theorem genericVisit_noMatch (idx : RuleIndex) :
    ∀ (fuel : Nat) (node out : Node),
      genericVisit idx fuel node = some out → NoMatchAll idx out := by
  intro fuel
  induction fuel with
  | zero => intro node out h; simp [genericVisit] at h
  | succ f ih =>
    intro node out h
    simp only [genericVisit] at h
    cases hvc : visitChildrenWith (genericVisit idx f) node with
    | none => simp only [hvc] at h; exact Option.noConfusion h
    | some node2 =>
      simp only [hvc] at h
      cases hrt : rewriteTop idx (f + 1) node2 with
      | none => simp only [hrt] at h; exact Option.noConfusion h
      | some newnode =>
        simp only [hrt] at h
        by_cases heq : newnode = node2
        · rw [if_pos heq] at h
          injection h with h2
          have htop : topNoMatch idx node2 :=
            rewriteTop_topNoMatch idx (f + 1) node2 node2 (heq ▸ hrt)
          have hch : childrenNoMatch idx node2 :=
            visitChildrenWith_noMatch idx (genericVisit idx f)
              (fun n o hh => ih n o hh) node node2 hvc
          have hnm : NoMatchAll idx node2 :=
            (noMatchAll_iff idx node2).mpr ⟨htop, hch⟩
          rwa [h2] at hnm
        · rw [if_neg heq] at h
          exact ih newnode out h

theorem genericVisit_of_noMatch (idx : RuleIndex) :
    ∀ n : Node, ∀ fuel : Nat, NoMatchAll idx n → nsize n ≤ fuel →
      genericVisit idx fuel n = some n := by
  refine nodeMutualInd
    (fun n => ∀ fuel, NoMatchAll idx n → nsize n ≤ fuel →
        genericVisit idx fuel n = some n)
    (fun ns => ∀ fuel, NoMatchAllList idx ns → lsize ns ≤ fuel →
        visitListWith (genericVisit idx fuel) ns = some ns)
    ?_ ?_ ?_ ?_ ?_ ?_ ?_ ?_
  · intro s fuel h hle
    cases fuel with
    | zero => simp [nsize] at hle
    | succ f =>
      simp only [NoMatchAll, topNoMatch] at h
      simp [genericVisit, visitChildrenWith, rewriteTop, h]
  · intro i fuel h hle
    cases fuel with
    | zero => simp [nsize] at hle
    | succ f =>
      simp only [NoMatchAll, topNoMatch] at h
      simp [genericVisit, visitChildrenWith, rewriteTop, h]
  · intro f args ihf ihargs fuel h hle
    cases fuel with
    | zero => have := nsize_pos (Node.call f args); omega
    | succ fl =>
      simp only [NoMatchAll, topNoMatch] at h
      obtain ⟨htop, hf, hargs⟩ := h
      simp only [nsize] at hle
      have h1 : genericVisit idx fl f = some f := ihf fl hf (by omega)
      have h2 : visitListWith (genericVisit idx fl) args = some args :=
        ihargs fl hargs (by omega)
      simp [genericVisit, visitChildrenWith, rewriteTop, h1, h2, htop]
  · intro op l r ihl ihr fuel h hle
    cases fuel with
    | zero => have := nsize_pos (Node.binop op l r); omega
    | succ fl =>
      simp only [NoMatchAll, topNoMatch] at h
      obtain ⟨htop, hl, hr⟩ := h
      simp only [nsize] at hle
      have h1 : genericVisit idx fl l = some l := ihl fl hl (by omega)
      have h2 : genericVisit idx fl r = some r := ihr fl hr (by omega)
      simp [genericVisit, visitChildrenWith, rewriteTop, h1, h2, htop]
  · intro op vs ihvs fuel h hle
    cases fuel with
    | zero => have := nsize_pos (Node.boolop op vs); omega
    | succ fl =>
      simp only [NoMatchAll, topNoMatch] at h
      obtain ⟨htop, hvs⟩ := h
      simp only [nsize] at hle
      have h2 : visitListWith (genericVisit idx fl) vs = some vs :=
        ihvs fl hvs (by omega)
      simp [genericVisit, visitChildrenWith, rewriteTop, h2, htop]
  · intro body ihb fuel h hle
    cases fuel with
    | zero => have := nsize_pos (Node.module body); omega
    | succ fl =>
      simp only [NoMatchAll, topNoMatch] at h
      obtain ⟨htop, hb⟩ := h
      simp only [nsize] at hle
      have h2 : visitListWith (genericVisit idx fl) body = some body :=
        ihb fl hb (by omega)
      simp [genericVisit, visitChildrenWith, rewriteTop, h2, htop]
  · intro fuel h hle
    simp [visitListWith]
  · intro n ns ihn ihns fuel h hle
    simp only [NoMatchAllList] at h
    obtain ⟨hn, hns⟩ := h
    simp only [lsize] at hle
    have hp := nsize_pos n
    have h1 : genericVisit idx fuel n = some n := ihn fuel hn (by omega)
    have h2 : visitListWith (genericVisit idx fuel) ns = some ns :=
      ihns fuel hns (by omega)
    simp [visitListWith, h1, h2]

/-- Claim C2: for every rewrite rule set and every tree on which the
rewrite pass terminates (returns within some fuel), the result is a
fixpoint of the rewrite engine: no rule matches any node of the output,
so applying `rewrite` to its own output (with fuel at least the output's
size, enough for the rule-free traversal) returns the identical tree. -/
theorem rewrite_fixpoint (idx : RuleIndex) (fuel : Nat) (t t2 : Node)
    (h : engineRewrite idx fuel t = some t2) :
    ∀ fuel2 : Nat, nsize t2 ≤ fuel2 → engineRewrite idx fuel2 t2 = some t2 := by
  intro fuel2 hle
  exact genericVisit_of_noMatch idx t2 fuel2 (genericVisit_noMatch idx fuel t t2 h) hle

/-- Witness for C2: with the single rule `0 + $X -> $X`, rewriting
`0 + 2` terminates with result `2`, and re-running the engine on `2`
returns `2` unchanged. -/
theorem rewrite_fixpoint_witness :
    engineRewrite
      (fun h => if h = PattHash.binopH "Add" then
          [RewriteRule.mk (.binop "Add" (.num 0) (.name "$X")) (.name "$X")
            (fun _ => true)]
        else []) 1 (Node.num 2) = some (Node.num 2) :=
  rewrite_fixpoint
    (fun h => if h = PattHash.binopH "Add" then
        [RewriteRule.mk (.binop "Add" (.num 0) (.name "$X")) (.name "$X")
          (fun _ => true)]
      else []) 5 (Node.binop "Add" (.num 0) (.num 2)) (Node.num 2) (by decide) 1 (by decide)
